import Mathlib

/-!
# Verification of the model-router routing/selection and fallback-execution core

Shallow embedding of `src/model_router` (Python) in Lean 4.

Conventions of the embedding:
* Python `float` is modelled by `ℚ` (exact arithmetic; the spec's claims are stated
  "within floating rounding", which exact rationals subsume).
* Python `frozenset[str]` capability sets are modelled as `List String`; every
  operation below iterates or tests membership exactly as the source does, and no
  claim depends on the distinction between a set and a duplicate-free list.
* Dictionaries / mappings are modelled as lookup functions or association lists.
* Code that raises is modelled with `Except` / `Option`; the error branch records
  which exception the source raises.
* Object identity (`is` / `is not` in the source) is modelled positionally: the
  elements of an input list are treated as pairwise-distinct objects, which is how
  a catalog of separately constructed `ModelConfig` values behaves.
-/

/-- `model_router.domain.models.Provider`: the provider enum. -/
inductive Provider where
  | openai
  | anthropic
  | google
  | custom
deriving DecidableEq, Repr

/-- `Provider.value` (the `str`-enum payload). -/
def Provider.value : Provider → String
  | .openai => "openai"
  | .anthropic => "anthropic"
  | .google => "google"
  | .custom => "custom"

/-- `model_router.domain.models.ModelConfig` (pydantic frozen dataclass).
The construction-time validator `validate_pricing` (pricing > 0) is carried as a
side condition `0 < pricing` on the theorems that range over constructible configs. -/
structure ModelConfig where
  provider : Provider
  model_name : String
  pricing : ℚ
  capabilities : List String
deriving DecidableEq, Repr

/-- `model_router.domain.models.RoutingStrategy`: the strategy tag enum. -/
inductive RoutingStrategy where
  | cost_biased
  | quality_biased
  | balanced
  | latency_biased
deriving DecidableEq, Repr

/-- `model_router.domain.models.RoutingConstraints` (pydantic frozen model). -/
structure RoutingConstraints where
  max_cost : Option ℚ
  max_latency : Option ℚ
  min_quality : Option ℚ
  strategy : RoutingStrategy
deriving DecidableEq, Repr

/-- The `RoutingConstraints` construction-time validators: `max_cost` and
`max_latency` are `gt=0` fields, `min_quality` must lie in `[0,1]`, and at least
one of `max_cost`/`max_latency` must be set. -/
def RoutingConstraints.wellFormed (k : RoutingConstraints) : Bool :=
  (match k.max_cost with | some v => decide (0 < v) | none => true) &&
  (match k.max_latency with | some v => decide (0 < v) | none => true) &&
  (match k.min_quality with | some v => decide (0 ≤ v ∧ v ≤ 1) | none => true) &&
  (k.max_cost.isSome || k.max_latency.isSome)

/-- `model_router.domain.models.Request`. The free-form `params`/`metadata`
maps are opaque to every routed component verified here (only `prompt` is read),
so they are omitted from the embedding. -/
structure Request where
  prompt : String
deriving DecidableEq, Repr

/-- `model_router.domain.models.Response`. `content` is `Any` in the source;
a `String` carrier suffices for every claim. -/
structure Response where
  content : String
  model_used : String
  cost : ℚ
  latency : ℚ
  tokens : Nat
deriving DecidableEq, Repr

/-- `model_router.providers.base.ProviderConfig` (frozen dataclass);
`max_retries ≥ 0` is captured by `Nat`, the remaining `__post_init__`
validations (`timeout > 0`, `backoff_factor > 0`, non-empty strings) are carried
as side conditions where a claim needs them. -/
structure ProviderConfig where
  api_key : String
  base_url : String
  timeout : ℚ
  max_retries : Nat
  backoff_factor : ℚ
deriving DecidableEq, Repr

/-- The `_clamp(value, minimum=0.0, maximum=1.0)` helper shared by the routing
strategies and the complexity estimator: `max(minimum, min(value, maximum))`. -/
def clamp (value : ℚ) : ℚ := max 0 (min value 1)

theorem clamp_nonneg (v : ℚ) : 0 ≤ clamp v := le_max_left 0 _

theorem clamp_le_one (v : ℚ) : clamp v ≤ 1 :=
  max_le (by norm_num) (min_le_right v 1)

theorem clamp_eq_self {v : ℚ} (h0 : 0 ≤ v) (h1 : v ≤ 1) : clamp v = v := by
  unfold clamp
  rw [min_eq_left h1, max_eq_right h0]

/-- Association-list lookup modelling `dict.get(key, 0.0)` on a weight table. -/
def lookupWeight (table : List (String × ℚ)) (cap : String) : ℚ :=
  match table.find? (fun cw => cw.1 == cap) with
  | some cw => cw.2
  | none => 0

/-! ## Routing strategies (`model_router.routing.strategies`) -/

/-- `CostOptimizedStrategy.score_model`. -/
def costScore (model : ModelConfig) (complexity : ℚ)
    (constraints : RoutingConstraints) : ℚ :=
  let price := max model.pricing (1 / 1000000)
  let base := 1 / (1 + price * 10)
  let base :=
    match constraints.max_cost with
    | some mc => if mc < price then base * (1 / 5) else base
    | none => base
  let penalty := (3 / 20) * clamp complexity
  clamp (base * (1 - penalty))

/-- `QualityOptimizedStrategy.WEIGHTS`. -/
def QUALITY_STRATEGY_WEIGHTS : List (String × ℚ) :=
  [("reasoning", 2/5), ("code", 3/10), ("vision", 3/20), ("chat", 1/10), ("analysis", 1/20)]

/-- `QualityOptimizedStrategy._capability_score`: sums `WEIGHTS.get(cap, 0.0)`
over the model's capability set and divides by the table total. -/
def qualityCapabilityScore (model : ModelConfig) : ℚ :=
  let total := (QUALITY_STRATEGY_WEIGHTS.map Prod.snd).sum
  let raw := (model.capabilities.map (lookupWeight QUALITY_STRATEGY_WEIGHTS)).sum
  if total = 0 then 0 else raw / total

/-- `QualityOptimizedStrategy.score_model`. -/
def qualityScore (model : ModelConfig) (complexity : ℚ)
    (constraints : RoutingConstraints) : ℚ :=
  let capabilityScore := qualityCapabilityScore model
  let complexityBoost := 1/2 + (1/2) * clamp complexity
  let score := capabilityScore * complexityBoost
  let score :=
    match constraints.max_cost with
    | some mc => if mc < model.pricing then score * (9/10) else score
    | none => score
  let score :=
    match constraints.min_quality with
    | some mq => score + (1/10) * clamp mq
    | none => score
  clamp score

/-- `LatencyOptimizedStrategy.LATENCY_WEIGHTS`. -/
def LATENCY_WEIGHTS : List (String × ℚ) :=
  [("low-latency", 1), ("realtime", 9/10), ("streaming", 7/10), ("batch", -(2/5))]

/-- `LatencyOptimizedStrategy.score_model`. -/
def latencyScore (model : ModelConfig) (complexity : ℚ)
    (constraints : RoutingConstraints) : ℚ :=
  let capabilityScore := (model.capabilities.map (lookupWeight LATENCY_WEIGHTS)).sum
  let capabilityScore := max capabilityScore 0 / (max LATENCY_WEIGHTS.length 1 : ℚ)
  let costComponent := 1 / (1 + model.pricing * 5)
  let complexityPenalty := (1/10) * clamp complexity
  let score := capabilityScore + (3/10) * costComponent - complexityPenalty
  let score :=
    match constraints.max_latency with
    | some ml => score * (1 + 1 / (ml + 1))
    | none => score
  clamp score

/-- `BalancedStrategy.score_model`: `0.3·cost + 0.45·quality + 0.25·latency`,
then `_clamp`. -/
def balancedScore (model : ModelConfig) (complexity : ℚ)
    (constraints : RoutingConstraints) : ℚ :=
  let cost := costScore model complexity constraints
  let quality := qualityScore model complexity constraints
  let latency := latencyScore model complexity constraints
  clamp ((3/10) * cost + (9/20) * quality + (1/4) * latency)

theorem costScore_mem_unit (m : ModelConfig) (c : ℚ) (k : RoutingConstraints) :
    0 ≤ costScore m c k ∧ costScore m c k ≤ 1 := by
  unfold costScore
  exact ⟨clamp_nonneg _, clamp_le_one _⟩

theorem qualityScore_mem_unit (m : ModelConfig) (c : ℚ) (k : RoutingConstraints) :
    0 ≤ qualityScore m c k ∧ qualityScore m c k ≤ 1 := by
  unfold qualityScore
  exact ⟨clamp_nonneg _, clamp_le_one _⟩

theorem latencyScore_mem_unit (m : ModelConfig) (c : ℚ) (k : RoutingConstraints) :
    0 ≤ latencyScore m c k ∧ latencyScore m c k ≤ 1 := by
  unfold latencyScore
  exact ⟨clamp_nonneg _, clamp_le_one _⟩

/-- **C6** — The balanced strategy's score is exactly the fixed linear blend
`0.30·cost + 0.45·quality + 0.25·latency` of the three individual strategies'
scores on the same `(model, complexity, constraints)` triple; the final clamp to
`[0,1]` never changes the value, because each component score is already clamped
into `[0,1]` and the weights sum to 1. Hypotheses restate the construction-time
validators of `ModelConfig` and `RoutingConstraints` (the domain the claim
quantifies over). -/
theorem C6_balanced_is_linear_blend (m : ModelConfig) (c : ℚ)
    (k : RoutingConstraints) (hp : 0 < m.pricing) (hk : k.wellFormed = true) :
    balancedScore m c k =
      (3/10) * costScore m c k + (9/20) * qualityScore m c k
        + (1/4) * latencyScore m c k := by
  obtain ⟨hc0, hc1⟩ := costScore_mem_unit m c k
  obtain ⟨hq0, hq1⟩ := qualityScore_mem_unit m c k
  obtain ⟨hl0, hl1⟩ := latencyScore_mem_unit m c k
  unfold balancedScore
  exact clamp_eq_self (by positivity) (by linarith)

/-- Witness for C6 at a concrete model/complexity/constraints triple. -/
theorem C6_balanced_is_linear_blend_witness :
    (0 : ℚ) < (1/50 : ℚ) ∧
      (RoutingConstraints.mk (some 1) none none .balanced).wellFormed = true ∧
      balancedScore ⟨.openai, "gpt-4", 1/50, ["chat", "reasoning"]⟩ (1/4)
          ⟨some 1, none, none, .balanced⟩ =
        (3/10) * costScore ⟨.openai, "gpt-4", 1/50, ["chat", "reasoning"]⟩ (1/4)
            ⟨some 1, none, none, .balanced⟩
          + (9/20) * qualityScore ⟨.openai, "gpt-4", 1/50, ["chat", "reasoning"]⟩ (1/4)
            ⟨some 1, none, none, .balanced⟩
          + (1/4) * latencyScore ⟨.openai, "gpt-4", 1/50, ["chat", "reasoning"]⟩ (1/4)
            ⟨some 1, none, none, .balanced⟩ :=
  ⟨by norm_num, by with_unfolding_all decide,
    C6_balanced_is_linear_blend _ _ _ (by norm_num) (by with_unfolding_all decide)⟩

/-! ## String helpers

Lean's `String.toLower`/`String.trim` do not reduce well in the kernel, so the
Python string primitives used by the source are modelled directly on the
underlying character lists. -/

/-- Python `t in s` (substring containment) on character lists. -/
def subOf (needle : List Char) : List Char → Bool
  | [] => needle.isEmpty
  | c :: rest => needle.isPrefixOf (c :: rest) || subOf needle rest

/-- Python `s.lower()` (ASCII case folding, which covers every string the
source compares). -/
def strLower (s : String) : String := ⟨s.data.map Char.toLower⟩

/-- Python `s.strip()`. -/
def pyStrip (s : String) : String :=
  ⟨((s.data.dropWhile Char.isWhitespace).reverse.dropWhile Char.isWhitespace).reverse⟩

/-- Python's falsiness test `not s.strip()`: true iff every character is
whitespace (so also for the empty string). -/
def isBlank (s : String) : Bool := s.data.all Char.isWhitespace

theorem isBlank_append (a b : String) :
    isBlank (a ++ b) = (isBlank a && isBlank b) := by
  unfold isBlank
  rw [String.data_append, List.all_append]

/-! ## Complexity estimation (`model_router.routing.estimator`)

The default estimator wired into `ModelSelector.__init__` via
`default_complexity_estimator()`: the mean of four clamped feature scores,
with blank prompts short-circuited to `0.0`. -/

/-- `LengthFeatureExtractor.extract` with the default `target_chars=300`
(the constructor applies `max(1, target_chars)`). -/
def lengthScore (prompt : String) : ℚ :=
  clamp ((prompt.length : ℚ) / (max 1 300 : ℚ))

/-- The three backticks of `CodeBlockFeatureExtractor.FENCE_PATTERN`. -/
def fenceChars : List Char := ['`', '`', '`']

/-- The character suffix following the first occurrence of three backticks. -/
def afterFirstFence : List Char → Option (List Char)
  | [] => none
  | c :: rest =>
    if fenceChars.isPrefixOf (c :: rest) then some (rest.drop 2)
    else afterFirstFence rest

/-- `FENCE_PATTERN.search(prompt)` for the regex ````` ```.+?``` ````` with
`DOTALL`: some decomposition `a ++ "```" ++ b ++ "```" ++ c` with `b` non-empty
exists iff another fence occurs at least one character after the first fence. -/
def hasFencedBlock (s : String) : Bool :=
  match afterFirstFence s.data with
  | none => false
  | some rest => subOf fenceChars (rest.drop 1)

/-- `CodeBlockFeatureExtractor.CODE_KEYWORDS`. -/
def CODE_KEYWORDS : List String :=
  ["def ", "class ", "SELECT ", "function", "public ", "\x7b", ";", "</"]

/-- `CodeBlockFeatureExtractor.extract`. -/
def codeBlockScore (prompt : String) : ℚ :=
  if hasFencedBlock prompt then 1
  else
    let lowered := strLower prompt
    let nMatches := (CODE_KEYWORDS.filter
      (fun kw => subOf (strLower (pyStrip kw)).data lowered.data)).length
    clamp ((nMatches : ℚ) / (CODE_KEYWORDS.length : ℚ))

/-- `ReasoningKeywordExtractor.KEYWORDS`. -/
def REASONING_KEYWORDS : List String :=
  ["reason", "explain", "derive", "analyze", "justify", "step-by-step",
   "compare", "evaluate"]

/-- `ReasoningKeywordExtractor.extract`. -/
def reasoningKeywordScore (prompt : String) : ℚ :=
  let lowered := strLower prompt
  let nMatches := (REASONING_KEYWORDS.filter
    (fun kw => subOf kw.data lowered.data)).length
  clamp ((nMatches : ℚ) / 2)

/-- `TechnicalTermExtractor.TERMS`. -/
def TECHNICAL_TERMS : List String :=
  ["tensor", "gradient", "database", "encryption", "neural", "api", "schema",
   "complexity", "algorithm", "probability", "latency"]

/-- `TechnicalTermExtractor.extract`. -/
def technicalTermScore (prompt : String) : ℚ :=
  let lowered := strLower prompt
  let nMatches := (TECHNICAL_TERMS.filter
    (fun kw => subOf kw.data lowered.data)).length
  clamp ((nMatches : ℚ) / 3)

/-- `ComplexityEstimator.estimate` over the built-in feature set of
`default_complexity_estimator()`: blank prompts give `0.0` exactly, otherwise the
clamped `statistics.fmean` of the clamped feature scores. -/
def defaultEstimate (prompt : String) : ℚ :=
  if isBlank prompt then 0
  else
    let scores := [clamp (lengthScore prompt), clamp (codeBlockScore prompt),
                   clamp (reasoningKeywordScore prompt),
                   clamp (technicalTermScore prompt)]
    clamp (scores.sum / (scores.length : ℚ))

/-! ## Decision construction (`model_router.domain.models.RoutingDecision`) -/

/-- The error taxonomy relevant to selection: `NoSuitableModelError` raised by
the selector, and pydantic `ValidationError`s raised by `RoutingDecision`'s
validators. -/
inductive RoutingError where
  | noSuitableModel
  | validationError (msg : String)
deriving DecidableEq, Repr

/-- `model_router.domain.models.RoutingDecision` (pydantic frozen model). -/
structure RoutingDecision where
  selected_model : ModelConfig
  estimated_cost : ℚ
  reasoning : String
  alternatives_considered : List ModelConfig
deriving DecidableEq, Repr

/-- Constructing a `RoutingDecision(...)`: pydantic first checks the
`estimated_cost` field constraint (`ge=0`), then runs the `ensure_reasoning`
model validator (non-blank reasoning, selected model not listed — by value
equality, Python `in` — among the alternatives). -/
def RoutingDecision.build (selected_model : ModelConfig) (estimated_cost : ℚ)
    (reasoning : String) (alternatives_considered : List ModelConfig) :
    Except RoutingError RoutingDecision :=
  if estimated_cost < 0 then
    .error (.validationError "estimated_cost must be non-negative")
  else if isBlank reasoning then
    .error (.validationError "reasoning must not be empty")
  else if selected_model ∈ alternatives_considered then
    .error (.validationError "selected model cannot be listed as an alternative")
  else
    .ok ⟨selected_model, estimated_cost, reasoning, alternatives_considered⟩

/-! ## Model selection (`model_router.routing.selector.ModelSelector`) -/

/-- `IRoutingStrategy`: the injected strategy, a scoring function plus the
observability name string. -/
structure IRoutingStrategy where
  score_model : ModelConfig → ℚ → RoutingConstraints → ℚ
  name : String

/-- The concrete `BalancedStrategy()` wiring. -/
def balancedStrategy : IRoutingStrategy := ⟨balancedScore, "balanced"⟩

/-- `ModelSelector.QUALITY_WEIGHTS`. -/
def QUALITY_WEIGHTS : List (String × ℚ) :=
  [("reasoning", 1), ("code", 4/5), ("analysis", 3/5), ("vision", 1/2), ("chat", 2/5)]

/-- `ModelSelector.LOW_LATENCY_TAGS`. -/
def LOW_LATENCY_TAGS : List String := ["low-latency", "realtime", "streaming"]

/-- `ModelSelector._quality_score`: weighted capability coverage against the
fixed table (iterating the table and testing membership in the capability
set, exactly as the source comprehension does). -/
def selectorQualityScore (model : ModelConfig) : ℚ :=
  if model.capabilities.isEmpty then 0
  else
    let total := (QUALITY_WEIGHTS.map Prod.snd).sum
    let raw := ((QUALITY_WEIGHTS.filter
      (fun cw => model.capabilities.contains cw.1)).map Prod.snd).sum
    raw / total

/-- `ModelSelector._supports_low_latency`. -/
def supportsLowLatency (model : ModelConfig) : Bool :=
  model.capabilities.any (fun cap => LOW_LATENCY_TAGS.contains cap)

/-- One iteration of `ModelSelector._filter_by_constraints`: a model is kept iff
none of the three `continue` branches fires. -/
def passesConstraints (constraints : RoutingConstraints) (model : ModelConfig) :
    Bool :=
  (match constraints.max_cost with
   | some mc => decide (model.pricing ≤ mc)
   | none => true) &&
  (match constraints.min_quality with
   | some mq => decide (mq ≤ selectorQualityScore model)
   | none => true) &&
  (match constraints.max_latency with
   | some ml => if ml ≤ 200 then supportsLowLatency model else true
   | none => true)

/-- Python's `f"{x:.2f}"` on a value that is an exact rational: scale by 100 and
round half-to-even (CPython's float formatting rounds ties to even; for the
non-tie values arising here the two agree), then print with two fractional
digits. -/
def roundHalfEven (x : ℚ) : ℤ :=
  let f := ⌊x⌋
  let r := x - f
  if r < 1/2 then f
  else if 1/2 < r then f + 1
  else if f % 2 = 0 then f else f + 1

/-- Render a rational to two decimal places (`f"{x:.2f}"`). -/
def fmt2 (x : ℚ) : String :=
  let n := roundHalfEven (x * 100)
  let sign := if n < 0 then "-" else ""
  let m := n.natAbs
  let fp := m % 100
  let fpStr := if fp < 10 then "0" ++ toString fp else toString fp
  sign ++ toString (m / 100) ++ "." ++ fpStr

/-- Rendering of a rational interpolated into an f-string (`f"...{value}"`).
Python renders the underlying float's repr; the exact text is irrelevant to
every claim (only non-blankness of the surrounding string matters), so the
rational is rendered directly. -/
def fmtQ (x : ℚ) : String := toString x

/-- `ModelSelector._build_reasoning`. The `scored` argument is the
score-sorted list (the source sorts `scored` in place before calling). -/
def buildReasoning (strategyName : String) (selected : ModelConfig)
    (topScore : ℚ) (scored : List (ModelConfig × ℚ))
    (constraints : RoutingConstraints) : String :=
  let summary := "Strategy " ++ strategyName ++ " selected " ++
    selected.model_name ++ " with score " ++ fmt2 topScore ++ " under constraints"
  let parts :=
    (match constraints.max_cost with
     | some mc => ["max_cost=" ++ fmtQ mc]
     | none => []) ++
    (match constraints.max_latency with
     | some ml => ["max_latency=" ++ fmtQ ml]
     | none => []) ++
    (match constraints.min_quality with
     | some mq => ["min_quality=" ++ fmtQ mq]
     | none => [])
  let constraintText :=
    if parts.isEmpty then "" else " (" ++ String.intercalate ", " parts ++ ")"
  let altNames := ((scored.drop 1).take 2).map (fun x => x.1.model_name)
  let altText :=
    if altNames.isEmpty then ""
    else ". Considered: " ++ String.intercalate ", " altNames
  summary ++ constraintText ++ altText

/-- `ModelSelector.select`. The injected strategy is a parameter (constructor
dependency injection); the selector's own complexity estimator is the concrete
`default_complexity_estimator()`. Python's stable `list.sort(key=score,
reverse=True)` is `mergeSort` with the total relation `b.score ≤ a.score`.
The `alternatives` comprehension excludes exactly the selected *object*
(`is not`), i.e. the head of the sorted list, while `RoutingDecision.build`
re-checks membership by value equality. -/
def select (strategy : IRoutingStrategy) (available_models : List ModelConfig)
    (request : Request) (constraints : RoutingConstraints) :
    Except RoutingError RoutingDecision :=
  let eligible := available_models.filter (passesConstraints constraints)
  match eligible with
  | [] => .error .noSuitableModel
  | _ :: _ =>
    let complexity := defaultEstimate request.prompt
    let scored := eligible.map
      (fun m => (m, strategy.score_model m complexity constraints))
    let sorted := scored.mergeSort (fun a b => decide (b.2 ≤ a.2))
    match sorted with
    | [] => .error .noSuitableModel
    | (best, bestScore) :: restScored =>
      RoutingDecision.build best best.pricing
        (buildReasoning strategy.name best bestScore
          ((best, bestScore) :: restScored) constraints)
        (restScored.map Prod.fst)

/-! ## Lemmas about decision construction and selection -/

theorem build_ok_inv {sel : ModelConfig} {cost : ℚ} {r : String}
    {alts : List ModelConfig} {d : RoutingDecision}
    (h : RoutingDecision.build sel cost r alts = .ok d) :
    d = ⟨sel, cost, r, alts⟩ ∧ 0 ≤ cost ∧ isBlank r = false ∧ sel ∉ alts := by
  unfold RoutingDecision.build at h
  split at h
  · exact absurd h (by simp)
  · rename_i hcost
    split at h
    · exact absurd h (by simp)
    · rename_i hblank
      split at h
      · exact absurd h (by simp)
      · rename_i hmem
        injection h with h
        exact ⟨h.symm, le_of_not_lt hcost, Bool.of_not_eq_true hblank, hmem⟩

theorem build_ok_of {sel : ModelConfig} {cost : ℚ} {r : String}
    {alts : List ModelConfig} (h0 : 0 ≤ cost) (h1 : isBlank r = false)
    (h2 : sel ∉ alts) :
    RoutingDecision.build sel cost r alts = .ok ⟨sel, cost, r, alts⟩ := by
  unfold RoutingDecision.build
  rw [if_neg (not_lt.mpr h0)]
  simp [h1, h2]

theorem buildReasoning_not_blank (sn : String) (sel : ModelConfig) (ts : ℚ)
    (scored : List (ModelConfig × ℚ)) (k : RoutingConstraints) :
    isBlank (buildReasoning sn sel ts scored k) = false := by
  unfold buildReasoning
  simp only [isBlank_append]
  have h : isBlank "Strategy " = false := by decide
  simp [h]

theorem select_eq_of_filter_eq_cons
    (strategy : IRoutingStrategy) (models : List ModelConfig) (request : Request)
    (constraints : RoutingConstraints) {a : ModelConfig} {l : List ModelConfig}
    (hfil : models.filter (passesConstraints constraints) = a :: l) :
    ∃ best bestScore rest,
      ((a :: l).map (fun m =>
          (m, strategy.score_model m (defaultEstimate request.prompt) constraints))).mergeSort
        (fun x y => decide (y.2 ≤ x.2)) = (best, bestScore) :: rest ∧
      select strategy models request constraints =
        RoutingDecision.build best best.pricing
          (buildReasoning strategy.name best bestScore ((best, bestScore) :: rest)
            constraints)
          (rest.map Prod.fst) := by
  cases hs : ((a :: l).map (fun m =>
      (m, strategy.score_model m (defaultEstimate request.prompt) constraints))).mergeSort
      (fun x y => decide (y.2 ≤ x.2)) with
  | nil =>
    have hlen := congrArg List.length hs
    rw [List.length_mergeSort] at hlen
    simp at hlen
  | cons p rest =>
    obtain ⟨best, bestScore⟩ := p
    refine ⟨best, bestScore, rest, rfl, ?_⟩
    unfold select
    rw [hfil]
    dsimp only
    rw [hs]

theorem build_ne_noSuitable (sel : ModelConfig) (cost : ℚ) (r : String)
    (alts : List ModelConfig) :
    RoutingDecision.build sel cost r alts ≠ .error .noSuitableModel := by
  unfold RoutingDecision.build
  split
  · simp
  · split
    · simp
    · split <;> simp

/-- **C4** — `ModelSelector.select` fails with `NoSuitableModelError` exactly
when the hard-constraint filter leaves zero candidates (when candidates do
survive, the result is either a decision or a pydantic validation error, never
the "no suitable model" failure or a default decision); and on the spec's
example — constraints `max_cost=0.05`, `min_quality=0.9` against a catalog whose
only model is priced `0.2` — it raises exactly that error. -/
theorem C4_no_suitable_iff_filter_empty :
    (∀ (strategy : IRoutingStrategy) (models : List ModelConfig)
        (request : Request) (constraints : RoutingConstraints),
      select strategy models request constraints = .error .noSuitableModel ↔
        models.filter (passesConstraints constraints) = []) ∧
    select balancedStrategy [⟨.openai, "gpt-4", 1/5, ["chat"]⟩] ⟨"hello"⟩
        ⟨some (1/20), none, some (9/10), .balanced⟩ = .error .noSuitableModel := by
  constructor
  · intro strategy models request constraints
    constructor
    · intro h
      cases hfil : models.filter (passesConstraints constraints) with
      | nil => rfl
      | cons a l =>
        obtain ⟨best, bestScore, rest, _, hsel⟩ :=
          select_eq_of_filter_eq_cons strategy models request constraints hfil
        rw [hsel] at h
        exact absurd h (build_ne_noSuitable _ _ _ _)
    · intro h
      unfold select
      rw [h]
  · with_unfolding_all rfl

/-- **C9** — every successfully constructed `RoutingDecision` satisfies the
invariant that its selected model does not appear (by value equality) among its
alternatives, and constructing one whose selected model is listed among
`alternatives_considered` fails with the validation error. -/
theorem C9_selected_never_in_alternatives :
    (∀ (sel : ModelConfig) (cost : ℚ) (r : String) (alts : List ModelConfig)
        (d : RoutingDecision),
      RoutingDecision.build sel cost r alts = .ok d →
        d.selected_model ∉ d.alternatives_considered) ∧
    RoutingDecision.build ⟨.openai, "gpt-4", 1/50, ["chat"]⟩ (1/50) "ok"
        [⟨.openai, "gpt-4", 1/50, ["chat"]⟩] =
      .error (.validationError "selected model cannot be listed as an alternative") := by
  constructor
  · intro sel cost r alts d h
    obtain ⟨hd, -, -, hmem⟩ := build_ok_inv h
    rw [hd]
    exact hmem
  · with_unfolding_all rfl


theorem passesConstraints_spec {k : RoutingConstraints} {m : ModelConfig}
    (h : passesConstraints k m = true) :
    (∀ mc, k.max_cost = some mc → m.pricing ≤ mc) ∧
    (∀ mq, k.min_quality = some mq → mq ≤ selectorQualityScore m) ∧
    (∀ ml, k.max_latency = some ml → ml ≤ 200 → supportsLowLatency m = true) := by
  unfold passesConstraints at h
  simp only [Bool.and_eq_true] at h
  obtain ⟨⟨h1, h2⟩, h3⟩ := h
  refine ⟨?_, ?_, ?_⟩
  · intro mc hmc
    rw [hmc] at h1
    exact of_decide_eq_true h1
  · intro mq hmq
    rw [hmq] at h2
    exact of_decide_eq_true h2
  · intro ml hml hle
    rw [hml] at h3
    dsimp only at h3
    rw [if_pos hle] at h3
    exact h3

/-- **C2 (amended)** — for every *duplicate-free* model list whose entries carry
positive pricing (the `ModelConfig` construction invariant), every request, and
well-formed constraints such that at least one model passes all hard
constraints, `ModelSelector.select` returns a decision whose selected model
satisfies every hard constraint: `pricing ≤ max_cost` when set (non-strict),
`selectorQualityScore ≥ min_quality` when set, and a low-latency-class
capability tag when `max_latency` is set and `≤ 200`. The duplicate-free
proviso is forced by the counterexample below: with two value-identical
surviving entries, `select` raises a validation error instead of returning a
decision. -/
theorem C2_selected_satisfies_constraints
    (strategy : IRoutingStrategy) (models : List ModelConfig) (request : Request)
    (constraints : RoutingConstraints)
    (hnd : models.Nodup)
    (hp : ∀ m ∈ models, 0 < m.pricing)
    (hwf : constraints.wellFormed = true)
    (hex : ∃ m ∈ models, passesConstraints constraints m = true) :
    ∃ d, select strategy models request constraints = .ok d ∧
      (∀ mc, constraints.max_cost = some mc → d.selected_model.pricing ≤ mc) ∧
      (∀ mq, constraints.min_quality = some mq →
        mq ≤ selectorQualityScore d.selected_model) ∧
      (∀ ml, constraints.max_latency = some ml → ml ≤ 200 →
        supportsLowLatency d.selected_model = true) := by
  obtain ⟨m, hm, hpass⟩ := hex
  have hmfil : m ∈ models.filter (passesConstraints constraints) :=
    List.mem_filter.mpr ⟨hm, hpass⟩
  cases hfil : models.filter (passesConstraints constraints) with
  | nil => rw [hfil] at hmfil; exact absurd hmfil (List.not_mem_nil m)
  | cons a l =>
    obtain ⟨best, bestScore, rest, hs, hsel⟩ :=
      select_eq_of_filter_eq_cons strategy models request constraints hfil
    set f : ModelConfig → ModelConfig × ℚ := fun m =>
      (m, strategy.score_model m (defaultEstimate request.prompt) constraints) with hf
    -- the head pair of the sorted list comes from the scored list
    have hmem1 : (best, bestScore) ∈ ((a :: l).map f).mergeSort
        (fun x y => decide (y.2 ≤ x.2)) := by
      rw [hs]
      exact List.mem_cons_self _ _
    have hhead : (best, bestScore) ∈ (a :: l).map f := List.mem_mergeSort.mp hmem1
    have hbest_fil : best ∈ models.filter (passesConstraints constraints) := by
      rw [hfil]
      obtain ⟨x, hx, hfx⟩ := List.mem_map.mp hhead
      have : x = best := congrArg Prod.fst hfx
      rwa [this] at hx
    have hbest_score : bestScore = strategy.score_model best
        (defaultEstimate request.prompt) constraints := by
      obtain ⟨x, hx, hfx⟩ := List.mem_map.mp hhead
      have hx1 : x = best := congrArg Prod.fst hfx
      have hx2 := congrArg Prod.snd hfx
      rw [hx1] at hx2
      exact hx2.symm
    have hpass_best : passesConstraints constraints best = true :=
      List.of_mem_filter hbest_fil
    have hbest_models : best ∈ models := List.mem_of_mem_filter hbest_fil
    -- nodup chain: the sorted scored list has no duplicate pairs
    have hnd_fil : (models.filter (passesConstraints constraints)).Nodup :=
      hnd.filter _
    have hnd_scored : ((a :: l).map f).Nodup := by
      rw [← hfil] at *
      exact List.Nodup.map (fun x y hxy => congrArg Prod.fst hxy) hnd_fil
    have hnd_sorted : (((a :: l).map f).mergeSort
        (fun x y => decide (y.2 ≤ x.2))).Nodup :=
      (List.mergeSort_perm _ _).symm.nodup hnd_scored
    rw [hs] at hnd_sorted
    have hnotmem_pair : (best, bestScore) ∉ rest := (List.nodup_cons.mp hnd_sorted).1
    have hnotmem : best ∉ rest.map Prod.fst := by
      intro hmem
      obtain ⟨q, hq, hq1⟩ := List.mem_map.mp hmem
      -- q is also an element of the scored list, so its snd is the score of its fst
      have hq_mem1 : q ∈ ((a :: l).map f).mergeSort
          (fun x y => decide (y.2 ≤ x.2)) := by
        rw [hs]
        exact List.mem_cons_of_mem _ hq
      have hq_scored : q ∈ (a :: l).map f := List.mem_mergeSort.mp hq_mem1
      obtain ⟨x, hx, hfx⟩ := List.mem_map.mp hq_scored
      have hx1 : x = q.1 := congrArg Prod.fst hfx
      have hxb : x = best := hx1.trans hq1
      have hq_eq : q = (best, bestScore) := by
        rw [← hfx, hxb]
        simp only [hf]
        rw [hbest_score]
      rw [hq_eq] at hq
      exact hnotmem_pair hq
    have hcost : (0 : ℚ) ≤ best.pricing := le_of_lt (hp best hbest_models)
    obtain ⟨p1, p2, p3⟩ := passesConstraints_spec hpass_best
    refine ⟨⟨best, best.pricing,
      buildReasoning strategy.name best bestScore ((best, bestScore) :: rest)
        constraints, rest.map Prod.fst⟩, ?_, p1, p2, p3⟩
    rw [hsel]
    exact build_ok_of hcost (buildReasoning_not_blank _ _ _ _ _) hnotmem

set_option maxRecDepth 8000 in
/-- Counterexample to C2 as stated: a catalog of two value-identical models,
both passing well-formed constraints, on which `select` does not return any
decision (it raises the "selected model cannot be listed as an alternative"
validation error). -/
theorem C2_duplicate_catalog_counterexample :
    (RoutingConstraints.mk (some 1) none none .balanced).wellFormed = true ∧
    passesConstraints ⟨some 1, none, none, .balanced⟩
      ⟨.openai, "gpt-4", 1/50, ["chat", "reasoning"]⟩ = true ∧
    ∀ d, select balancedStrategy
      [⟨.openai, "gpt-4", 1/50, ["chat", "reasoning"]⟩,
       ⟨.openai, "gpt-4", 1/50, ["chat", "reasoning"]⟩] ⟨"hello"⟩
      ⟨some 1, none, none, .balanced⟩ ≠ .ok d := by
  refine ⟨by with_unfolding_all decide, by with_unfolding_all decide, ?_⟩
  intro d h
  have he : select balancedStrategy
      [⟨.openai, "gpt-4", 1/50, ["chat", "reasoning"]⟩,
       ⟨.openai, "gpt-4", 1/50, ["chat", "reasoning"]⟩] ⟨"hello"⟩
      ⟨some 1, none, none, .balanced⟩ =
      .error (.validationError "selected model cannot be listed as an alternative") := by
    with_unfolding_all rfl
  rw [he] at h
  exact Except.noConfusion h

/-- Witness for the amended C2 at a concrete singleton catalog. -/
theorem C2_selected_satisfies_constraints_witness :
    ([(⟨.openai, "gpt-4", 1/50, ["chat", "reasoning"]⟩ : ModelConfig)].Nodup ∧
      (∀ m ∈ [(⟨.openai, "gpt-4", 1/50, ["chat", "reasoning"]⟩ : ModelConfig)],
        0 < m.pricing) ∧
      (RoutingConstraints.mk (some 1) none none .balanced).wellFormed = true ∧
      (∃ m ∈ [(⟨.openai, "gpt-4", 1/50, ["chat", "reasoning"]⟩ : ModelConfig)],
        passesConstraints ⟨some 1, none, none, .balanced⟩ m = true)) ∧
    (∃ d, select balancedStrategy
        [⟨.openai, "gpt-4", 1/50, ["chat", "reasoning"]⟩] ⟨"hello"⟩
        ⟨some 1, none, none, .balanced⟩ = .ok d ∧
      (∀ mc, (RoutingConstraints.mk (some 1) none none .balanced).max_cost = some mc →
        d.selected_model.pricing ≤ mc) ∧
      (∀ mq, (RoutingConstraints.mk (some 1) none none .balanced).min_quality = some mq →
        mq ≤ selectorQualityScore d.selected_model) ∧
      (∀ ml, (RoutingConstraints.mk (some 1) none none .balanced).max_latency = some ml →
        ml ≤ 200 → supportsLowLatency d.selected_model = true)) :=
  ⟨⟨by with_unfolding_all decide, by with_unfolding_all decide,
      by with_unfolding_all decide, by with_unfolding_all decide⟩,
    C2_selected_satisfies_constraints balancedStrategy
      [⟨.openai, "gpt-4", 1/50, ["chat", "reasoning"]⟩] ⟨"hello"⟩
      ⟨some 1, none, none, .balanced⟩
      (by with_unfolding_all decide) (by with_unfolding_all decide)
      (by with_unfolding_all decide) (by with_unfolding_all decide)⟩

/-! ## Fallback execution (`model_router.core.router.Router._execute_with_fallback`) -/

/-- Modelled from the spec: `ProviderFactory.infer_provider_key`. The operation
is referenced by `Router._execute_with_fallback` and declared by the test
doubles, but its implementation is absent from
`src/src/model_router/providers/factory.py`; per spec §4.5 the factory exposes a
best-effort "infer provider key from model name" operation that walks the same
ordered, case-insensitive, first-match-wins pattern rules used for dispatch
(`^(gpt|text-davinci|o1)` → openai, `^(claude)` → anthropic,
`^(gemini|palm)` → google) and fails (`none`) when no rule matches. -/
def inferProviderKey (model_name : String) : Option String :=
  let lowered := strLower model_name
  if ["gpt", "text-davinci", "o1"].any (fun p => p.data.isPrefixOf lowered.data) then
    some "openai"
  else if ("claude").data.isPrefixOf lowered.data then
    some "anthropic"
  else if ["gemini", "palm"].any (fun p => p.data.isPrefixOf lowered.data) then
    some "google"
  else
    none

/-- Steps 1–2 of `_execute_with_fallback`: the routing-derived candidates
`[selected, *alternatives]` as `(model_name, provider.value)` pairs, then each
configured fallback model appended (in configured order) with its inferred
provider key when inference succeeds and the pair is not already present
(`seen_models` is the set of pairs accumulated so far). -/
def buildCandidates (decision : RoutingDecision) (fallback_models : List String) :
    List (String × String) :=
  let initial := (decision.selected_model :: decision.alternatives_considered).map
    (fun c => (c.model_name, c.provider.value))
  fallback_models.foldl
    (fun acc fallback_model =>
      match inferProviderKey fallback_model with
      | none => acc
      | some provider_key =>
        if (fallback_model, provider_key) ∈ acc then acc
        else acc ++ [(fallback_model, provider_key)])
    initial

/-- Step 3 of `_execute_with_fallback`: the forced-provider reorder. Python
tests `if self._forced_provider:` (truthiness), so `none` and the empty string
leave the list unchanged; otherwise the matching candidates are stably moved to
the front via the two list comprehensions. -/
def reorderForced (forced_provider : Option String)
    (provider_attempts : List (String × String)) : List (String × String) :=
  match forced_provider with
  | none => provider_attempts
  | some p =>
    if p = "" then provider_attempts
    else
      provider_attempts.filter (fun attempt => attempt.2 == p) ++
        provider_attempts.filter (fun attempt => !(attempt.2 == p))

/-- Outcome of handling one candidate whose provider configuration exists:
`factory.create` may raise (`createError`, uncaught by the walk), and otherwise
`provider.complete` either returns a response or raises (`failure`, caught). -/
inductive AttemptOutcome where
  | createError
  | success (r : Response)
  | failure
deriving DecidableEq, Repr

/-- Result of the candidate walk: a response, an uncaught `factory.create`
error, or the terminal `RuntimeError("All provider attempts failed")`. -/
inductive WalkResult where
  | ok (r : Response)
  | createError
  | allFailed
deriving DecidableEq, Repr

/-- A walk outcome together with the candidates on which `provider.complete`
was actually invoked, in order (the instrumentation for attempt counting). -/
structure WalkTrace where
  result : WalkResult
  invoked : List (String × String)
deriving DecidableEq, Repr

/-- Steps 4–6 of `_execute_with_fallback`: walk the candidates in order,
breaking once `attempts ≥ max_retries`, skipping (without counting) candidates
whose provider key has no configuration, invoking the provider otherwise, and
counting only failed invocations toward `attempts`; exhaustion raises the
aggregate error. `provider_configs.get` is the lookup function `configs`;
`env` gives each candidate's outcome. -/
def walkCandidates (configs : String → Option ProviderConfig)
    (env : String → String → AttemptOutcome) (max_retries : Nat) :
    List (String × String) → Nat → WalkTrace
  | [], _ => ⟨.allFailed, []⟩
  | (model_name, provider_key) :: rest, attempts =>
    if max_retries ≤ attempts then ⟨.allFailed, []⟩
    else
      match configs provider_key with
      | none => walkCandidates configs env max_retries rest attempts
      | some _ =>
        match env model_name provider_key with
        | .createError => ⟨.createError, []⟩
        | .success r => ⟨.ok r, [(model_name, provider_key)]⟩
        | .failure =>
          let t := walkCandidates configs env max_retries rest (attempts + 1)
          ⟨t.result, (model_name, provider_key) :: t.invoked⟩

/-- `Router._execute_with_fallback`, assembled: candidate construction,
forced-provider reorder, then the bounded walk starting from `attempts = 0`. -/
def executeWithFallback (configs : String → Option ProviderConfig)
    (env : String → String → AttemptOutcome) (forced_provider : Option String)
    (fallback_models : List String) (max_retries : Nat)
    (decision : RoutingDecision) : WalkTrace :=
  walkCandidates configs env max_retries
    (reorderForced forced_provider (buildCandidates decision fallback_models)) 0

theorem walkCandidates_invoked_le (configs : String → Option ProviderConfig)
    (env : String → String → AttemptOutcome) (max_retries : Nat) :
    ∀ (cands : List (String × String)) (attempts : Nat),
      (walkCandidates configs env max_retries cands attempts).invoked.length ≤
        max_retries - attempts := by
  intro cands
  induction cands with
  | nil =>
    intro attempts
    simp [walkCandidates]
  | cons c rest ih =>
    intro attempts
    obtain ⟨model_name, provider_key⟩ := c
    unfold walkCandidates
    split
    · simp
    · rename_i hlt
      cases hc : configs provider_key with
      | none =>
        dsimp only
        exact ih attempts
      | some cfg =>
        dsimp only
        cases he : env model_name provider_key with
        | createError => simp
        | success r =>
          simp only [WalkTrace.invoked, List.length_singleton]
          omega
        | failure =>
          have h := ih (attempts + 1)
          simp only [WalkTrace.invoked, List.length_cons]
          omega

theorem walkCandidates_invoked_configured (configs : String → Option ProviderConfig)
    (env : String → String → AttemptOutcome) (max_retries : Nat) :
    ∀ (cands : List (String × String)) (attempts : Nat),
      ∀ c ∈ (walkCandidates configs env max_retries cands attempts).invoked,
        (configs c.2).isSome = true := by
  intro cands
  induction cands with
  | nil =>
    intro attempts c hc
    simp [walkCandidates] at hc
  | cons cand rest ih =>
    intro attempts c hc
    obtain ⟨model_name, provider_key⟩ := cand
    unfold walkCandidates at hc
    split at hc
    · simp at hc
    · cases hcfg : configs provider_key with
      | none =>
        rw [hcfg] at hc
        exact ih attempts c hc
      | some cfg =>
        rw [hcfg] at hc
        dsimp only at hc
        cases he : env model_name provider_key with
        | createError => rw [he] at hc; simp at hc
        | success r =>
          rw [he] at hc
          simp at hc
          rw [hc, hcfg]
          rfl
        | failure =>
          rw [he] at hc
          simp only [WalkTrace.invoked, List.mem_cons] at hc
          cases hc with
          | inl hceq => rw [hceq, hcfg]; rfl
          | inr hmem => exact ih (attempts + 1) c hmem

/-- **C3** — for every candidate list (of any length), provider-configuration
map, outcome environment, and configured `max_retries`, the fallback walk
performs at most `max_retries` actual provider invocations in total; every
invoked candidate had a provider configuration (candidates skipped for a
missing configuration never appear among the invocations, so they do not count
toward the budget); and consequently the whole `_execute_with_fallback` run —
for every decision, fallback configuration and forced-provider override —
stays within the same budget. -/
theorem C3_walk_bounded_by_max_retries (configs : String → Option ProviderConfig)
    (env : String → String → AttemptOutcome) (max_retries : Nat)
    (cands : List (String × String)) (forced_provider : Option String)
    (fallback_models : List String) (decision : RoutingDecision) :
    ((walkCandidates configs env max_retries cands 0).invoked.length ≤ max_retries ∧
      ∀ c ∈ (walkCandidates configs env max_retries cands 0).invoked,
        (configs c.2).isSome = true) ∧
    (executeWithFallback configs env forced_provider fallback_models max_retries
        decision).invoked.length ≤ max_retries :=
  ⟨⟨by simpa using walkCandidates_invoked_le configs env max_retries cands 0,
      walkCandidates_invoked_configured configs env max_retries cands 0⟩,
    by
      simpa using walkCandidates_invoked_le configs env max_retries
        (reorderForced forced_provider (buildCandidates decision fallback_models)) 0⟩

/-- **C5** — the forced-provider override only reorders: the reordered list is
a permutation of the un-overridden list (same entries, none dropped or added),
and for every set (truthy, i.e. non-empty) override it equals the stable
partition with all entries matching the forced provider key first, each group
keeping its relative order (`filter` preserves relative order). -/
theorem C5_forced_reorder_is_stable_partition (l : List (String × String))
    (forced_provider : Option String) :
    (reorderForced forced_provider l).Perm l ∧
    reorderForced none l = l ∧
    (∀ p, p ≠ "" → reorderForced (some p) l =
      l.filter (fun attempt => attempt.2 == p) ++
        l.filter (fun attempt => !(attempt.2 == p))) := by
  refine ⟨?_, rfl, ?_⟩
  · cases forced_provider with
    | none => exact List.Perm.refl l
    | some p =>
      unfold reorderForced
      dsimp only
      split
      · exact List.Perm.refl l
      · exact List.filter_append_perm _ l
  · intro p hp
    unfold reorderForced
    dsimp only
    rw [if_neg hp]

/-- **C1** — the spec's fallback example, run through the assembled
`_execute_with_fallback`: the decision's single candidate is `(gpt-4, openai)`,
`fallback_models=["gpt-3.5"]`, `max_retries=2`, an `openai` provider
configuration exists (the inferred provider key for both models), the `gpt-4`
attempt fails, and the `gpt-3.5` attempt succeeds. Then gpt-3.5 is resolved via
the (spec-modelled) `infer_provider_key`, the walk invokes exactly
`gpt-4` then `gpt-3.5` (so the primary is attempted exactly once), and the
returned response has `model_used = "gpt-3.5"`. -/
theorem C1_fallback_example :
    executeWithFallback
      (fun p => if p = "openai" then
          some ⟨"key", "https://api.openai.com", 30, 3, 1/2⟩ else none)
      (fun m _ => if m = "gpt-4" then .failure
        else if m = "gpt-3.5" then .success ⟨"fallback", "gpt-3.5", 1/100, 1/10, 5⟩
        else .createError)
      none ["gpt-3.5"] 2
      ⟨⟨.openai, "gpt-4", 1/50, ["chat"]⟩, 1/50, "primary", []⟩ =
      ⟨.ok ⟨"fallback", "gpt-3.5", 1/100, 1/10, 5⟩,
        [("gpt-4", "openai"), ("gpt-3.5", "openai")]⟩ ∧
    (Response.mk "fallback" "gpt-3.5" (1/100) (1/10) 5).model_used = "gpt-3.5" ∧
    [("gpt-4", "openai"), ("gpt-3.5", "openai")].countP
      (fun c => c.1 == "gpt-4") = 1 := by
  refine ⟨?_, rfl, by decide⟩
  with_unfolding_all rfl

/-! ## Provider retry with backoff (`model_router.providers.base.BaseProvider`) -/

/-- Outcome of a single `_make_api_call` invocation: a response, or one of the
exception classes distinguished by `execute_request`'s handlers
(`ProviderRateLimitError`, `ProviderUnavailableError`, other `ProviderError`,
or an unexpected exception wrapped into a `ProviderError`). -/
inductive ApiOutcome where
  | ok (r : Response)
  | rateLimited
  | unavailable
  | providerError
  | unexpected
deriving DecidableEq, Repr

/-- The two transient error classes that `execute_request` retries. -/
def ApiOutcome.isTransient : ApiOutcome → Bool
  | .rateLimited => true
  | .unavailable => true
  | _ => false

/-- The provider failure surfaced to the fallback core. -/
inductive ProviderFailure where
  | rateLimited
  | unavailable
  | generic
  | unexpectedWrapped
  | exhaustedLoop
deriving DecidableEq, Repr

/-- How `execute_request` surfaces the outcome of its final API call: success
is returned, a transient error on the last attempt is re-raised, a generic
`ProviderError` is re-raised as-is, and an unexpected exception is wrapped. -/
def ApiOutcome.surfaced : ApiOutcome → Except ProviderFailure Response
  | .ok r => .ok r
  | .rateLimited => .error .rateLimited
  | .unavailable => .error .unavailable
  | .providerError => .error .generic
  | .unexpected => .error .unexpectedWrapped

/-- Instrumented run of `execute_request`: the result, the number of
`_make_api_call` invocations, and the blocking sleeps in order. -/
structure ExecTrace where
  result : Except ProviderFailure Response
  calls : Nat
  sleeps : List ℚ

/-- The loop `for attempt in range(max_retries + 1)` of
`BaseProvider.execute_request`, with the remaining loop iterations as fuel
(`attempt + remaining = max_retries + 1` throughout, so the source's retry
guard `attempt == config.max_retries` is `remaining = 0` here). A transient
error on a non-final attempt sleeps `_backoff_delay(attempt) =
backoff_factor * 2 ** attempt` and retries; the `remaining = 0` fuel case is
the unreachable `raise ProviderError(...)` after the loop. -/
def execGo (config : ProviderConfig) (call : Nat → ApiOutcome) :
    Nat → Nat → ExecTrace
  | _, 0 => ⟨.error .exhaustedLoop, 0, []⟩
  | attempt, remaining + 1 =>
    match call attempt with
    | .ok r => ⟨.ok r, 1, []⟩
    | .providerError => ⟨.error .generic, 1, []⟩
    | .unexpected => ⟨.error .unexpectedWrapped, 1, []⟩
    | .rateLimited =>
      if remaining = 0 then ⟨.error .rateLimited, 1, []⟩
      else
        let t := execGo config call (attempt + 1) remaining
        ⟨t.result, t.calls + 1, config.backoff_factor * 2 ^ attempt :: t.sleeps⟩
    | .unavailable =>
      if remaining = 0 then ⟨.error .unavailable, 1, []⟩
      else
        let t := execGo config call (attempt + 1) remaining
        ⟨t.result, t.calls + 1, config.backoff_factor * 2 ^ attempt :: t.sleeps⟩

/-- `BaseProvider.execute_request`. -/
def executeRequest (config : ProviderConfig) (call : Nat → ApiOutcome) :
    ExecTrace :=
  execGo config call 0 (config.max_retries + 1)

theorem execGo_calls_le (config : ProviderConfig) (call : Nat → ApiOutcome) :
    ∀ (remaining attempt : Nat),
      (execGo config call attempt remaining).calls ≤ remaining := by
  intro remaining
  induction remaining with
  | zero => intro attempt; rfl
  | succ n ih =>
    intro attempt
    unfold execGo
    cases call attempt with
    | ok r => simp
    | providerError => simp
    | unexpected => simp
    | rateLimited =>
      dsimp only
      split
      · simp
      · have := ih (attempt + 1)
        simp only [ExecTrace.calls]
        omega
    | unavailable =>
      dsimp only
      split
      · simp
      · have := ih (attempt + 1)
        simp only [ExecTrace.calls]
        omega

theorem execGo_one_le_calls (config : ProviderConfig) (call : Nat → ApiOutcome)
    (remaining attempt : Nat) (h : 1 ≤ remaining) :
    1 ≤ (execGo config call attempt remaining).calls := by
  cases remaining with
  | zero => omega
  | succ n =>
    unfold execGo
    cases call attempt with
    | ok r => simp
    | providerError => simp
    | unexpected => simp
    | rateLimited =>
      dsimp only
      split
      · simp
      · simp only [ExecTrace.calls]; omega
    | unavailable =>
      dsimp only
      split
      · simp
      · simp only [ExecTrace.calls]; omega

theorem execGo_sleeps_spec (config : ProviderConfig) (call : Nat → ApiOutcome) :
    ∀ (remaining attempt : Nat),
      (execGo config call attempt remaining).sleeps =
        (List.range ((execGo config call attempt remaining).calls - 1)).map
          (fun i => config.backoff_factor * 2 ^ (attempt + i)) := by
  intro remaining
  induction remaining with
  | zero => intro attempt; rfl
  | succ n ih =>
    intro attempt
    unfold execGo
    cases call attempt with
    | ok r => simp
    | providerError => simp
    | unexpected => simp
    | rateLimited =>
      dsimp only
      split
      · simp
      · rename_i hn
        have h1 : 1 ≤ (execGo config call (attempt + 1) n).calls :=
          execGo_one_le_calls config call n (attempt + 1) (by omega)
        simp only [ExecTrace.sleeps, ExecTrace.calls]
        rw [ih (attempt + 1)]
        have hc : (execGo config call (attempt + 1) n).calls + 1 - 1 =
            ((execGo config call (attempt + 1) n).calls - 1) + 1 := by omega
        rw [hc, List.range_succ_eq_map, List.map_cons, List.map_map]
        refine congrArg₂ _ (by ring_nf) ?_
        refine List.map_congr_left ?_
        intro i _
        simp only [Function.comp]
        have : attempt + 1 + i = attempt + i.succ := by omega
        rw [this]
    | unavailable =>
      dsimp only
      split
      · simp
      · rename_i hn
        have h1 : 1 ≤ (execGo config call (attempt + 1) n).calls :=
          execGo_one_le_calls config call n (attempt + 1) (by omega)
        simp only [ExecTrace.sleeps, ExecTrace.calls]
        rw [ih (attempt + 1)]
        have hc : (execGo config call (attempt + 1) n).calls + 1 - 1 =
            ((execGo config call (attempt + 1) n).calls - 1) + 1 := by omega
        rw [hc, List.range_succ_eq_map, List.map_cons, List.map_map]
        refine congrArg₂ _ (by ring_nf) ?_
        refine List.map_congr_left ?_
        intro i _
        simp only [Function.comp]
        have : attempt + 1 + i = attempt + i.succ := by omega
        rw [this]

theorem execGo_prefix_transient (config : ProviderConfig) (call : Nat → ApiOutcome) :
    ∀ (remaining attempt i : Nat),
      i + 1 < (execGo config call attempt remaining).calls →
        (call (attempt + i)).isTransient = true := by
  intro remaining
  induction remaining with
  | zero =>
    intro attempt i h
    simp only [execGo, ExecTrace.calls] at h
    omega
  | succ n ih =>
    intro attempt i h
    unfold execGo at h
    cases hc : call attempt with
    | ok r => rw [hc] at h; simp [ExecTrace.calls] at h
    | providerError => rw [hc] at h; simp [ExecTrace.calls] at h
    | unexpected => rw [hc] at h; simp [ExecTrace.calls] at h
    | rateLimited =>
      rw [hc] at h
      dsimp only at h
      split at h
      · simp [ExecTrace.calls] at h
      · simp only [ExecTrace.calls] at h
        cases i with
        | zero => rw [Nat.add_zero, hc]; rfl
        | succ j =>
          have hj : j + 1 < (execGo config call (attempt + 1) n).calls := by omega
          have := ih (attempt + 1) j hj
          have hidx : attempt + 1 + j = attempt + (j + 1) := by omega
          rwa [hidx] at this
    | unavailable =>
      rw [hc] at h
      dsimp only at h
      split at h
      · simp [ExecTrace.calls] at h
      · simp only [ExecTrace.calls] at h
        cases i with
        | zero => rw [Nat.add_zero, hc]; rfl
        | succ j =>
          have hj : j + 1 < (execGo config call (attempt + 1) n).calls := by omega
          have := ih (attempt + 1) j hj
          have hidx : attempt + 1 + j = attempt + (j + 1) := by omega
          rwa [hidx] at this

theorem execGo_result_surfaced (config : ProviderConfig) (call : Nat → ApiOutcome) :
    ∀ (remaining attempt : Nat), 1 ≤ remaining →
      (execGo config call attempt remaining).result =
        (call (attempt + ((execGo config call attempt remaining).calls - 1))).surfaced := by
  intro remaining
  induction remaining with
  | zero => intro attempt h; omega
  | succ n ih =>
    intro attempt _
    unfold execGo
    cases hc : call attempt with
    | ok r => simp [ExecTrace.calls, ExecTrace.result, hc, ApiOutcome.surfaced]
    | providerError => simp [ExecTrace.calls, ExecTrace.result, hc, ApiOutcome.surfaced]
    | unexpected => simp [ExecTrace.calls, ExecTrace.result, hc, ApiOutcome.surfaced]
    | rateLimited =>
      dsimp only
      split
      · simp [ExecTrace.calls, ExecTrace.result, hc, ApiOutcome.surfaced]
      · rename_i hn
        have h1 : 1 ≤ (execGo config call (attempt + 1) n).calls :=
          execGo_one_le_calls config call n (attempt + 1) (by omega)
        simp only [ExecTrace.calls, ExecTrace.result]
        rw [ih (attempt + 1) (by omega)]
        have hidx : attempt + 1 + ((execGo config call (attempt + 1) n).calls - 1) =
            attempt + ((execGo config call (attempt + 1) n).calls + 1 - 1) := by omega
        rw [hidx]
    | unavailable =>
      dsimp only
      split
      · simp [ExecTrace.calls, ExecTrace.result, hc, ApiOutcome.surfaced]
      · rename_i hn
        have h1 : 1 ≤ (execGo config call (attempt + 1) n).calls :=
          execGo_one_le_calls config call n (attempt + 1) (by omega)
        simp only [ExecTrace.calls, ExecTrace.result]
        rw [ih (attempt + 1) (by omega)]
        have hidx : attempt + 1 + ((execGo config call (attempt + 1) n).calls - 1) =
            attempt + ((execGo config call (attempt + 1) n).calls + 1 - 1) := by omega
        rw [hidx]

theorem execGo_exhaustion (config : ProviderConfig) (call : Nat → ApiOutcome) :
    ∀ (remaining attempt : Nat),
      (∀ j, j < remaining → (call (attempt + j)).isTransient = true) →
      (execGo config call attempt remaining).calls = remaining := by
  intro remaining
  induction remaining with
  | zero => intro attempt _; rfl
  | succ n ih =>
    intro attempt htr
    have h0 : (call attempt).isTransient = true := by
      have := htr 0 (by omega)
      rwa [Nat.add_zero] at this
    unfold execGo
    cases hc : call attempt with
    | ok r => rw [hc] at h0; simp [ApiOutcome.isTransient] at h0
    | providerError => rw [hc] at h0; simp [ApiOutcome.isTransient] at h0
    | unexpected => rw [hc] at h0; simp [ApiOutcome.isTransient] at h0
    | rateLimited =>
      dsimp only
      split
      · rename_i hn; simp [ExecTrace.calls, hn]
      · rename_i hn
        have hrec := ih (attempt + 1) (fun j hj => by
          have := htr (j + 1) (by omega)
          have hidx : attempt + (j + 1) = attempt + 1 + j := by omega
          rwa [hidx] at this)
        simp only [ExecTrace.calls]
        omega
    | unavailable =>
      dsimp only
      split
      · rename_i hn; simp [ExecTrace.calls, hn]
      · rename_i hn
        have hrec := ih (attempt + 1) (fun j hj => by
          have := htr (j + 1) (by omega)
          have hidx : attempt + (j + 1) = attempt + 1 + j := by omega
          rwa [hidx] at this)
        simp only [ExecTrace.calls]
        omega

/-- **C7** — within a single provider adapter, `execute_request` invokes the
raw API call at most `max_retries + 1` times; the sleeps between attempts are
exactly one backoff delay `backoff_factor * 2 ^ attempt` per retried attempt
(`attempt` counted from 0, in order); every call that was followed by another
one had a transient (rate-limit or unavailable) outcome — so a generic provider
error never triggers a retry and, by the result equation, is surfaced
immediately as the final call's re-raised error; and when the whole budget
fails transiently, the loop runs all `max_retries + 1` calls and surfaces the
last transient error. -/
theorem C7_provider_retry_policy (config : ProviderConfig) (call : Nat → ApiOutcome) :
    (executeRequest config call).calls ≤ config.max_retries + 1 ∧
    (executeRequest config call).sleeps =
      (List.range ((executeRequest config call).calls - 1)).map
        (fun attempt => config.backoff_factor * 2 ^ attempt) ∧
    (∀ i, i + 1 < (executeRequest config call).calls →
      (call i).isTransient = true) ∧
    (executeRequest config call).result =
      (call ((executeRequest config call).calls - 1)).surfaced ∧
    ((∀ i, i ≤ config.max_retries → (call i).isTransient = true) →
      (executeRequest config call).calls = config.max_retries + 1 ∧
      (executeRequest config call).result = (call config.max_retries).surfaced) := by
  unfold executeRequest
  refine ⟨execGo_calls_le config call _ 0, ?_, ?_, ?_, ?_⟩
  · have h := execGo_sleeps_spec config call (config.max_retries + 1) 0
    simpa using h
  · intro i h
    have ht := execGo_prefix_transient config call (config.max_retries + 1) 0 i h
    rwa [Nat.zero_add] at ht
  · have h := execGo_result_surfaced config call (config.max_retries + 1) 0 (by omega)
    rwa [Nat.zero_add] at h
  · intro htr
    have hcalls := execGo_exhaustion config call (config.max_retries + 1) 0
      (fun j hj => by rw [Nat.zero_add]; exact htr j (by omega))
    refine ⟨hcalls, ?_⟩
    have hres := execGo_result_surfaced config call (config.max_retries + 1) 0 (by omega)
    rw [Nat.zero_add] at hres
    rw [hres, hcalls]
    norm_num

/-! ## Routing engine (`model_router.routing.engine.RoutingEngine`) -/

/-- `RoutingEngine.route`, over an arbitrary monad `M` carrying the single
effectful step — the one call to the injected estimator's `estimate` — with
everything afterwards pure: delegate to the selector and rebuild the decision
(a pydantic construction, re-running the validators) with
`" | complexity={complexity:.2f}"` appended to the reasoning and all other
fields passed through unchanged. -/
def engineRouteM {M : Type → Type} [Monad M] (estimate : String → M ℚ)
    (strategy : IRoutingStrategy) (models : List ModelConfig) (request : Request)
    (constraints : RoutingConstraints) :
    M (Except RoutingError RoutingDecision) := do
  let complexity ← estimate request.prompt
  pure
    (match select strategy models request constraints with
     | .error e => .error e
     | .ok decision =>
       RoutingDecision.build decision.selected_model decision.estimated_cost
         (decision.reasoning ++ " | complexity=" ++ fmt2 complexity)
         decision.alternatives_considered)

/-- `RoutingEngine.route` with the estimator run as the pure function it is. -/
def engineRoute (estimate : String → ℚ) (strategy : IRoutingStrategy)
    (models : List ModelConfig) (request : Request)
    (constraints : RoutingConstraints) : Except RoutingError RoutingDecision :=
  engineRouteM (fun p => (pure (estimate p) : Id ℚ)) strategy models request
    constraints

/-- The injected estimator instrumented with a call counter. -/
def countingEstimator (estimate : String → ℚ) (p : String) : StateM Nat ℚ :=
  fun n => (estimate p, n + 1)

/-- The number of times `route` invokes its injected estimator, read off by
running `route` with the counter-instrumented estimator. -/
def engineEstimateCalls (estimate : String → ℚ) (strategy : IRoutingStrategy)
    (models : List ModelConfig) (request : Request)
    (constraints : RoutingConstraints) : Nat :=
  ((engineRouteM (countingEstimator estimate) strategy models request
    constraints).run 0).2

theorem select_ok_valid {strategy : IRoutingStrategy} {models : List ModelConfig}
    {request : Request} {constraints : RoutingConstraints} {d : RoutingDecision}
    (h : select strategy models request constraints = .ok d) :
    0 ≤ d.estimated_cost ∧ isBlank d.reasoning = false ∧
      d.selected_model ∉ d.alternatives_considered := by
  cases hfil : models.filter (passesConstraints constraints) with
  | nil =>
    unfold select at h
    rw [hfil] at h
    exact absurd h (by simp)
  | cons a l =>
    obtain ⟨best, bestScore, rest, hs, hsel⟩ :=
      select_eq_of_filter_eq_cons strategy models request constraints hfil
    rw [hsel] at h
    obtain ⟨hd, h0, h1, h2⟩ := build_ok_inv h
    subst hd
    exact ⟨h0, h1, h2⟩

/-- **C8** — when the selector returns a decision, `RoutingEngine.route`
returns a decision with identical `selected_model`, `estimated_cost` and
`alternatives_considered`, and with reasoning equal to the selector's reasoning
with `" | complexity=X.XX"` appended (the prompt's complexity estimate to two
decimal places); and the engine's injected estimator is invoked exactly once
per `route` call. -/
theorem C8_engine_appends_complexity (estimate : String → ℚ)
    (strategy : IRoutingStrategy) (models : List ModelConfig) (request : Request)
    (constraints : RoutingConstraints) (d : RoutingDecision)
    (h : select strategy models request constraints = .ok d) :
    engineRoute estimate strategy models request constraints =
      .ok ⟨d.selected_model, d.estimated_cost,
        d.reasoning ++ " | complexity=" ++ fmt2 (estimate request.prompt),
        d.alternatives_considered⟩ ∧
    engineEstimateCalls estimate strategy models request constraints = 1 := by
  obtain ⟨h0, h1, h2⟩ := select_ok_valid h
  constructor
  · have hb : isBlank (d.reasoning ++ " | complexity=" ++ fmt2 (estimate request.prompt)) = false := by
      rw [isBlank_append, isBlank_append, h1]
      rfl
    unfold engineRoute engineRouteM
    simp only [h]
    exact build_ok_of h0 hb h2
  · with_unfolding_all rfl

/-- Concrete single-model catalog entry for the C8 witness. -/
def c8Model : ModelConfig := ⟨.openai, "gpt-4", 1/50, ["chat", "reasoning"]⟩

/-- The decision the selector returns on the C8 witness input. -/
def c8Decision : RoutingDecision :=
  ⟨c8Model, 1/50,
    "Strategy balanced selected gpt-4 with score 0.43 under constraints (max_cost=1)",
    []⟩

set_option maxRecDepth 8000 in
/-- Witness for C8 at a concrete catalog, request, constraints and estimator. -/
theorem C8_engine_appends_complexity_witness :
    select balancedStrategy [c8Model] ⟨"hello"⟩ ⟨some 1, none, none, .balanced⟩ =
      .ok c8Decision ∧
    (engineRoute (fun _ => 0) balancedStrategy [c8Model] ⟨"hello"⟩
        ⟨some 1, none, none, .balanced⟩ =
      .ok ⟨c8Decision.selected_model, c8Decision.estimated_cost,
        c8Decision.reasoning ++ " | complexity=" ++
          fmt2 ((fun _ => (0 : ℚ)) (Request.mk "hello").prompt),
        c8Decision.alternatives_considered⟩ ∧
    engineEstimateCalls (fun _ => 0) balancedStrategy [c8Model] ⟨"hello"⟩
        ⟨some 1, none, none, .balanced⟩ = 1) := by
  have hsel : select balancedStrategy [c8Model] ⟨"hello"⟩
      ⟨some 1, none, none, .balanced⟩ = .ok c8Decision := by
    with_unfolding_all rfl
  exact ⟨hsel, C8_engine_appends_complexity (fun _ => 0) balancedStrategy
    [c8Model] ⟨"hello"⟩ ⟨some 1, none, none, .balanced⟩ c8Decision hsel⟩

theorem select_sorted_head_count
    (strategy : IRoutingStrategy) (models : List ModelConfig) (request : Request)
    (constraints : RoutingConstraints) {a : ModelConfig} {l : List ModelConfig}
    {best : ModelConfig} {bestScore : ℚ} {rest : List (ModelConfig × ℚ)}
    (hs : ((a :: l).map (fun m =>
        (m, strategy.score_model m (defaultEstimate request.prompt) constraints))).mergeSort
      (fun x y => decide (y.2 ≤ x.2)) = (best, bestScore) :: rest) :
    (a :: l).count best = (rest.map Prod.fst).count best + 1 := by
  set f : ModelConfig → ModelConfig × ℚ := fun m =>
    (m, strategy.score_model m (defaultEstimate request.prompt) constraints) with hf
  have hperm : (((a :: l).map f).mergeSort
      (fun x y => decide (y.2 ≤ x.2))).Perm ((a :: l).map f) :=
    List.mergeSort_perm _ _
  have hmperm := hperm.map Prod.fst
  rw [hs, List.map_map] at hmperm
  have hid : ((a :: l).map (Prod.fst ∘ f)) = a :: l := by
    have hcomp : (Prod.fst ∘ f) = id := by
      funext m
      rfl
    rw [hcomp, List.map_id]
  rw [hid] at hmperm
  have hcnt := hmperm.count_eq best
  rw [List.map_cons] at hcnt
  rw [← hcnt, List.count_cons_self]

/-- Concrete models for the C10 analysis: `c10Top` outscores `c10Dup` under the
balanced strategy, and `c10Dup` is the entry that appears twice. -/
def c10Top : ModelConfig := ⟨.openai, "gpt-4", 1/50, ["chat", "reasoning"]⟩

/-- The duplicated catalog entry of the C10 analysis. -/
def c10Dup : ModelConfig := ⟨.anthropic, "claude-3", 1/100, ["chat"]⟩

set_option maxRecDepth 8000 in
/-- Counterexample to C10 as stated: a catalog containing two distinct
value-identical entries (`c10Dup` twice) that both survive filtering, on which
`select` nevertheless *returns a decision* — the distinct, strictly
higher-scoring `c10Top` is selected and the two duplicates land among the
alternatives, value-unequal to the selected model, so the validator passes. -/
theorem C10_outscored_duplicates_counterexample :
    passesConstraints ⟨some 1, none, none, .balanced⟩ c10Dup = true ∧
    select balancedStrategy [c10Top, c10Dup, c10Dup] ⟨"hello"⟩
        ⟨some 1, none, none, .balanced⟩ =
      .ok ⟨c10Top, 1/50,
        "Strategy balanced selected gpt-4 with score 0.43 under constraints (max_cost=1). Considered: claude-3, claude-3",
        [c10Dup, c10Dup]⟩ := by
  constructor
  · with_unfolding_all decide
  · with_unfolding_all rfl

set_option maxRecDepth 8000 in
/-- **C10 (amended)** — the identity-vs-equality mismatch (alternatives built
with `is not`, the `RoutingDecision` validator checking with `in`) bites
exactly when a value-duplicated survivor is top-ranked: (1) any decision
`select` returns has a selected model whose value occurs at most once among the
surviving candidates; (2) when every surviving candidate's value occurs at
least twice among the survivors — as in a catalog of two value-identical
entries, with positive pricing per the `ModelConfig` invariant — `select`
raises the "selected model cannot be listed as an alternative" validation error
instead of returning a decision; and (3) the concrete two-duplicate catalog
raises exactly that error. -/
theorem C10_duplicate_selected_raises_validation_error :
    (∀ (strategy : IRoutingStrategy) (models : List ModelConfig)
        (request : Request) (constraints : RoutingConstraints)
        (d : RoutingDecision),
      select strategy models request constraints = .ok d →
        (models.filter (passesConstraints constraints)).count d.selected_model ≤ 1) ∧
    (∀ (strategy : IRoutingStrategy) (models : List ModelConfig)
        (request : Request) (constraints : RoutingConstraints),
      (∀ m ∈ models, 0 < m.pricing) →
      models.filter (passesConstraints constraints) ≠ [] →
      (∀ m ∈ models.filter (passesConstraints constraints),
        1 < (models.filter (passesConstraints constraints)).count m) →
      select strategy models request constraints =
        .error (.validationError "selected model cannot be listed as an alternative")) ∧
    select balancedStrategy [c10Dup, c10Dup] ⟨"hello"⟩
        ⟨some 1, none, none, .balanced⟩ =
      .error (.validationError "selected model cannot be listed as an alternative") := by
  refine ⟨?_, ?_, by with_unfolding_all rfl⟩
  · intro strategy models request constraints d h
    cases hfil : models.filter (passesConstraints constraints) with
    | nil =>
      unfold select at h
      rw [hfil] at h
      exact absurd h (by simp)
    | cons a l =>
      obtain ⟨best, bestScore, rest, hs, hsel⟩ :=
        select_eq_of_filter_eq_cons strategy models request constraints hfil
      rw [hsel] at h
      obtain ⟨hd, -, -, hmem⟩ := build_ok_inv h
      subst hd
      have hcount := select_sorted_head_count strategy models request constraints hs
      have hzero : (rest.map Prod.fst).count best = 0 :=
        List.count_eq_zero.mpr hmem
      show (a :: l).count best ≤ 1
      rw [hcount, hzero]
  · intro strategy models request constraints hpricing hne hdup
    cases hfil : models.filter (passesConstraints constraints) with
    | nil => exact absurd hfil hne
    | cons a l =>
      obtain ⟨best, bestScore, rest, hs, hsel⟩ :=
        select_eq_of_filter_eq_cons strategy models request constraints hfil
      have hcount := select_sorted_head_count strategy models request constraints hs
      have hmem1 : (best, bestScore) ∈ ((a :: l).map (fun m =>
          (m, strategy.score_model m (defaultEstimate request.prompt) constraints))).mergeSort
          (fun x y => decide (y.2 ≤ x.2)) := by
        rw [hs]
        exact List.mem_cons_self _ _
      have hhead := List.mem_mergeSort.mp hmem1
      obtain ⟨x, hx, hfx⟩ := List.mem_map.mp hhead
      have hx1 : x = best := congrArg Prod.fst hfx
      have hbest_fil : best ∈ models.filter (passesConstraints constraints) := by
        rw [hfil]
        rwa [hx1] at hx
      have hbest_models : best ∈ models := List.mem_of_mem_filter hbest_fil
      have hbest_count := hdup best hbest_fil
      rw [hfil, hcount] at hbest_count
      have hmemfst : best ∈ rest.map Prod.fst := by
        by_contra hnot
        rw [List.count_eq_zero.mpr hnot] at hbest_count
        omega
      rw [hsel]
      unfold RoutingDecision.build
      rw [if_neg (not_lt.mpr (le_of_lt (hpricing best hbest_models)))]
      simp [buildReasoning_not_blank, hmemfst]
